import Mathlib

/-!
Verification development for the object-tree renderer
(src/lib/object-tree.ts, src/lib/handlers.ts, src/lib/types.ts).

The JavaScript code is shallowly embedded: JS strings are Lean String
values manipulated through character-list helpers that mirror the JS
string methods used by the source (slice, startsWith, includes, length,
sort); JS numbers used as configuration limits are modelled as
Option Nat, where none stands for Number.POSITIVE_INFINITY; the chalk
color adapter is an explicit function parameter (the environment),
with the identity environment standing for chalk.level = 0.
-/

/-! Character-level models of the JS string operations used by the source. -/

/-- Model of the JS string length (code units; code points over the
basic plane coincide). -/
def strLen (s : String) : Nat := s.toList.length

/-- Model of JS s.slice(0, e): a negative end counts from the end of
the string. -/
def jsSliceTo (s : String) (e : Int) : String :=
  let n : Int := Int.ofNat s.toList.length
  let stop : Int := if e < 0 then max (n + e) 0 else min e n
  String.mk (s.toList.take stop.toNat)

/-- Whether the first list is an initial segment of the second. -/
def leadSeg : List Char → List Char → Bool
  | [], _ => true
  | _ :: _, [] => false
  | a :: as, b :: bs => a == b && leadSeg as bs

/-- Whether the first list occurs contiguously inside the second. -/
def hasSeg (sub : List Char) : List Char → Bool
  | [] => leadSeg sub []
  | b :: bs => leadSeg sub (b :: bs) || hasSeg sub bs

/-- Model of JS s.startsWith(p). -/
def jsStartsWith (s p : String) : Bool := leadSeg p.toList s.toList

/-- Model of JS s.includes(sub). -/
def jsIncludes (s sub : String) : Bool := hasSeg sub.toList s.toList

/-- Code-unit comparison of characters, as JS string comparison does. -/
def lexLe : List Char → List Char → Bool
  | [], _ => true
  | _ :: _, [] => false
  | a :: as, b :: bs =>
    if a.toNat < b.toNat then true
    else if b.toNat < a.toNat then false
    else lexLe as bs

/-- Model of the default JS string comparison used by Array.prototype.sort. -/
def strLe (a b : String) : Bool := lexLe a.toList b.toList

/-- Ordered insertion used by the model of keys.sort(). -/
def insOrd (x : String) : List String → List String
  | [] => [x]
  | y :: ys => if strLe x y then x :: y :: ys else y :: insOrd x ys

/-- Model of keys.sort() with the default comparator.  On lists of
distinct keys (the only lists that arise from a JS object) every
correct sort by strLe produces the same list, so insertion sort is a
faithful model of the engine sort. -/
def sortStrs : List String → List String
  | [] => []
  | x :: xs => insOrd x (sortStrs xs)

/-- The apostrophe character, used by the single-quote style. -/
def quoteChar : String := String.mk [Char.ofNat 39]

/-! Configuration model, from src/lib/types.ts and the defaults in
src/lib/object-tree.ts.  A numeric limit is Option Nat: none models
Number.POSITIVE_INFINITY. -/

/-- Quote style for strings, from types.ts. -/
inductive QuoteStyle where
  | noQuotes
  | single
  | double
deriving DecidableEq, Repr

/-- Date format, from types.ts. -/
inductive DateFormat where
  | fmtNone
  | iso
  | locale
deriving DecidableEq, Repr

/-- Connector characters, from types.ts. -/
structure TreeChars where
  tee : String
  ell : String
  pipe : String
deriving DecidableEq, Repr

/-- Per-type color names, from types.ts.  The fields cls and inst
correspond to the source fields class and instance, which are Lean
keywords. -/
structure ColorsOpts where
  string : String
  number : String
  boolean : String
  null : String
  undefined : String
  bigint : String
  symbol : String
  function : String
  cls : String
  date : String
  regexp : String
  array : String
  object : String
  set : String
  map : String
  inst : String
deriving DecidableEq, Repr

/-- String section of the resolved options. -/
structure StrOpts where
  maxLength : Nat
  quotes : QuoteStyle
deriving DecidableEq, Repr

/-- Array section of the resolved options. -/
structure ArrOpts where
  maxItems : Option Nat
  showLength : Bool
deriving DecidableEq, Repr

/-- Object section of the resolved options. -/
structure ObjOpts where
  maxKeys : Option Nat
  sortKeys : Bool
deriving DecidableEq, Repr

/-- Set section of the resolved options. -/
structure SetOpts where
  maxItems : Option Nat
  showSize : Bool
deriving DecidableEq, Repr

/-- Map section of the resolved options. -/
structure MapOpts where
  maxItems : Option Nat
  showSize : Bool
  divider : String
deriving DecidableEq, Repr

/-- Date section of the resolved options. -/
structure DateOpts where
  format : DateFormat
deriving DecidableEq, Repr

/-- Fully resolved options, from types.ts ResolvedOptions. -/
structure ResolvedOptions where
  chars : TreeChars
  connectorColor : String
  indent : String
  maxDepth : Option Nat
  showRoot : Bool
  colors : ColorsOpts
  string : StrOpts
  array : ArrOpts
  object : ObjOpts
  set : SetOpts
  map : MapOpts
  date : DateOpts
deriving DecidableEq, Repr

/-- Default configuration, from the defaults constant in
object-tree.ts. -/
def defaults : ResolvedOptions where
  chars := { tee := "├─", ell := "└─", pipe := "│" }
  connectorColor := "gray"
  indent := "  "
  maxDepth := none
  showRoot := false
  colors :=
    { string := "green", number := "cyan", boolean := "yellow",
      null := "red", undefined := "gray", bigint := "cyan",
      symbol := "magenta", function := "gray", cls := "cyan",
      date := "magenta", regexp := "red", array := "yellow",
      object := "cyan", set := "green", map := "blue", inst := "cyan" }
  string := { maxLength := 80, quotes := QuoteStyle.double }
  array := { maxItems := none, showLength := true }
  object := { maxKeys := none, sortKeys := true }
  set := { maxItems := none, showSize := true }
  map := { maxItems := none, showSize := true, divider := " → " }
  date := { format := DateFormat.fmtNone }

/-! Partial user options, from types.ts ObjectTreeOptions: every field
is optional, and every section is optional as a whole. -/

/-- User-supplied connector characters, all fields optional. -/
structure UserChars where
  tee : Option String := none
  ell : Option String := none
  pipe : Option String := none

/-- User-supplied color overrides, all fields optional. -/
structure UserColors where
  string : Option String := none
  number : Option String := none
  boolean : Option String := none
  null : Option String := none
  undefined : Option String := none
  bigint : Option String := none
  symbol : Option String := none
  function : Option String := none
  cls : Option String := none
  date : Option String := none
  regexp : Option String := none
  array : Option String := none
  object : Option String := none
  set : Option String := none
  map : Option String := none
  inst : Option String := none

/-- User-supplied string section. -/
structure UserStr where
  maxLength : Option Nat := none
  quotes : Option QuoteStyle := none

/-- User-supplied array section. -/
structure UserArr where
  maxItems : Option (Option Nat) := none
  showLength : Option Bool := none

/-- User-supplied object section. -/
structure UserObj where
  maxKeys : Option (Option Nat) := none
  sortKeys : Option Bool := none

/-- User-supplied set section. -/
structure UserSet where
  maxItems : Option (Option Nat) := none
  showSize : Option Bool := none

/-- User-supplied map section. -/
structure UserMap where
  maxItems : Option (Option Nat) := none
  showSize : Option Bool := none
  divider : Option String := none

/-- User-supplied date section. -/
structure UserDate where
  format : Option DateFormat := none

/-- Partial configuration, from types.ts ObjectTreeOptions. -/
structure ObjectTreeOptions where
  chars : Option UserChars := none
  connectorColor : Option String := none
  indent : Option String := none
  maxDepth : Option (Option Nat) := none
  showRoot : Option Bool := none
  colors : Option UserColors := none
  string : Option UserStr := none
  array : Option UserArr := none
  object : Option UserObj := none
  set : Option UserSet := none
  map : Option UserMap := none
  date : Option UserDate := none

/-- Model of the object spread merge of one chars section:
an absent user section keeps the defaults, a present one overrides
exactly the fields it carries. -/
def mergeChars (d : TreeChars) : Option UserChars → TreeChars
  | none => d
  | some u => { tee := u.tee.getD d.tee, ell := u.ell.getD d.ell, pipe := u.pipe.getD d.pipe }

/-- Spread merge of the colors section. -/
def mergeColors (d : ColorsOpts) : Option UserColors → ColorsOpts
  | none => d
  | some u =>
    { string := u.string.getD d.string, number := u.number.getD d.number,
      boolean := u.boolean.getD d.boolean, null := u.null.getD d.null,
      undefined := u.undefined.getD d.undefined, bigint := u.bigint.getD d.bigint,
      symbol := u.symbol.getD d.symbol, function := u.function.getD d.function,
      cls := u.cls.getD d.cls, date := u.date.getD d.date,
      regexp := u.regexp.getD d.regexp, array := u.array.getD d.array,
      object := u.object.getD d.object, set := u.set.getD d.set,
      map := u.map.getD d.map, inst := u.inst.getD d.inst }

/-- Spread merge of the string section. -/
def mergeStr (d : StrOpts) : Option UserStr → StrOpts
  | none => d
  | some u => { maxLength := u.maxLength.getD d.maxLength, quotes := u.quotes.getD d.quotes }

/-- Spread merge of the array section. -/
def mergeArr (d : ArrOpts) : Option UserArr → ArrOpts
  | none => d
  | some u => { maxItems := u.maxItems.getD d.maxItems, showLength := u.showLength.getD d.showLength }

/-- Spread merge of the object section. -/
def mergeObj (d : ObjOpts) : Option UserObj → ObjOpts
  | none => d
  | some u => { maxKeys := u.maxKeys.getD d.maxKeys, sortKeys := u.sortKeys.getD d.sortKeys }

/-- Spread merge of the set section. -/
def mergeSet (d : SetOpts) : Option UserSet → SetOpts
  | none => d
  | some u => { maxItems := u.maxItems.getD d.maxItems, showSize := u.showSize.getD d.showSize }

/-- Spread merge of the map section. -/
def mergeMap (d : MapOpts) : Option UserMap → MapOpts
  | none => d
  | some u =>
    { maxItems := u.maxItems.getD d.maxItems, showSize := u.showSize.getD d.showSize,
      divider := u.divider.getD d.divider }

/-- Spread merge of the date section. -/
def mergeDate (d : DateOpts) : Option UserDate → DateOpts
  | none => d
  | some u => { format := u.format.getD d.format }

/-- Model of resolveOptions from object-tree.ts: an independent
shallow merge of every section over the defaults; the scalar fields
use the nullish-coalescing operator. -/
def resolveOptions (opts : ObjectTreeOptions) : ResolvedOptions where
  chars := mergeChars defaults.chars opts.chars
  connectorColor := opts.connectorColor.getD defaults.connectorColor
  indent := opts.indent.getD defaults.indent
  maxDepth := (opts.maxDepth).getD defaults.maxDepth
  showRoot := opts.showRoot.getD defaults.showRoot
  colors := mergeColors defaults.colors opts.colors
  string := mergeStr defaults.string opts.string
  array := mergeArr defaults.array opts.array
  object := mergeObj defaults.object opts.object
  set := mergeSet defaults.set opts.set
  map := mergeMap defaults.map opts.map
  date := mergeDate defaults.date opts.date

/-! Value model: the universe of JS values the handler chain
distinguishes, from the predicates in src/lib/handlers.ts. -/

/-- A JS value as classified by the handler chain.  vnum carries
whether the number is NaN and its canonical decimal text; vsymbol
carries its String(...) form; vdate carries the results of
toISOString and toLocaleString; vregexp carries its toString form;
vfunc and vclass carry the (possibly empty) name; vobj is a plain
object (own enumerable string keys in enumeration order); vinstance
carries the constructor name (possibly empty). -/
inductive Value where
  | vnull
  | vundefined
  | vbool (b : Bool)
  | vnum (nan : Bool) (text : String)
  | vbigint (digits : String)
  | vsymbol (desc : String)
  | vstr (s : String)
  | vdate (iso : String) (locale : String)
  | vregexp (src : String)
  | varr (elems : List Value)
  | vset (elems : List Value)
  | vmap (entries : List (String × Value))
  | vfunc (name : String)
  | vclass (name : String)
  | vobj (entries : List (String × Value))
  | vinstance (ctorName : String) (entries : List (String × Value))

/-- Structural height of a value: containers are one more than the
maximum height of their member values, everything else is zero.  Used
as the termination measure of the walker. -/
def Value.height : Value → Nat
  | .varr es => 1 + (es.attach.map (fun x => Value.height x.1)).foldr max 0
  | .vset es => 1 + (es.attach.map (fun x => Value.height x.1)).foldr max 0
  | .vmap ps => 1 + (ps.attach.map (fun x => Value.height x.1.2)).foldr max 0
  | .vobj ps => 1 + (ps.attach.map (fun x => Value.height x.1.2)).foldr max 0
  | .vinstance _ ps => 1 + (ps.attach.map (fun x => Value.height x.1.2)).foldr max 0
  | _ => 0
decreasing_by
  all_goals
    have h := List.sizeOf_lt_of_mem x.2
    first
    | (simp only [Value.varr.sizeOf_spec, Value.vset.sizeOf_spec]
       omega)
    | (have h2 : sizeOf x.1.2 < sizeOf x.1 := by
         obtain ⟨⟨k, v⟩, hm⟩ := x
         simp only [Prod.mk.sizeOf_spec]
         omega
       simp only [Value.vmap.sizeOf_spec, Value.vobj.sizeOf_spec,
         Value.vinstance.sizeOf_spec]
       omega)

/-- The color environment: a model of the chalk adapter, mapping a
color name and a text to the (possibly colorized) text.  The identity
environment models chalk.level = 0. -/
def ColorEnv : Type := String → String → String

/-- The pass-through environment (no color support). -/
def plainEnv : ColorEnv := fun _ text => text

/-- Model of colorize from handlers.ts: apply the environment. -/
def colorize (env : ColorEnv) (text : String) (color : String) : String :=
  env color text

/-- One child entry of a render result, from types.ts RenderResult. -/
structure ChildEntry where
  key : String
  value : Value
  divider : Option String := none

/-- A classified node, from types.ts RenderResult.  The optional
children field of the source is modelled as a list that is empty when
absent. -/
structure RenderResult where
  header : String
  children : List ChildEntry := []

/-- Model of truncationEntry from handlers.ts. -/
def truncationEntry (remaining : Nat) : ChildEntry :=
  { key := "…", value := Value.vstr ("+" ++ toString remaining ++ " more") }

/-- Model of Math.min(len, limit) where the limit may be the
positive-infinity sentinel. -/
def minClamp (len : Nat) : Option Nat → Nat
  | none => len
  | some m => min len m

/-- Whether a numeric-or-infinite limit is strictly below a length. -/
def boundLt (m : Option Nat) (len : Nat) : Bool :=
  match m with
  | none => false
  | some k => decide (k < len)

/-- Model of JS array indexing value[i] (undefined when out of range). -/
def jsIndex (es : List Value) (i : Nat) : Value := es.getD i Value.vundefined

/-- Model of JS property access value[k] on an own-entries list
(undefined when the key is absent, which cannot happen for a key
obtained from Object.keys). -/
def lookupVal (es : List (String × Value)) (k : String) : Value :=
  match es with
  | [] => Value.vundefined
  | (k2, v) :: rest => if k2 = k then v else lookupVal rest k

/-- One handler of the chain: may decline by returning none. -/
def Handler : Type := ColorEnv → Value → ResolvedOptions → Option RenderResult

/-- Model of handlePrimitive from handlers.ts. -/
def handlePrimitive : Handler := fun env v opts =>
  match v with
  | .vnull => some { header := colorize env "null" opts.colors.null }
  | .vundefined => some { header := colorize env "undefined" opts.colors.undefined }
  | .vbool b => some { header := colorize env (if b then "true" else "false") opts.colors.boolean }
  | .vnum nan text =>
    some { header := colorize env (if nan then "NaN" else text) opts.colors.number }
  | .vbigint digits => some { header := colorize env (digits ++ "n") opts.colors.bigint }
  | .vsymbol desc => some { header := colorize env desc opts.colors.symbol }
  | _ => none

/-- Wrap a body in the configured quote style, as handleString does. -/
def quoteWrap (quotes : QuoteStyle) (body : String) : String :=
  match quotes with
  | .single => quoteChar ++ body ++ quoteChar
  | .double => "\"" ++ body ++ "\""
  | .noQuotes => body

/-- Model of handleString from handlers.ts: truncate via
slice(0, maxLength - 1) plus an ellipsis when longer than maxLength,
then wrap in the configured quotes. -/
def handleString : Handler := fun env v opts =>
  match v with
  | .vstr s =>
    let maxLength := opts.string.maxLength
    let truncated :=
      if strLen s > maxLength then jsSliceTo s (Int.ofNat maxLength - 1) ++ "…" else s
    some { header := colorize env (quoteWrap opts.string.quotes truncated) opts.colors.string }
  | _ => none

/-- Model of handleDate from handlers.ts. -/
def handleDate : Handler := fun env v opts =>
  match v with
  | .vdate iso locale =>
    let body :=
      match opts.date.format with
      | .fmtNone => "Date()"
      | .iso => "Date(" ++ iso ++ ")"
      | .locale => "Date(" ++ locale ++ ")"
    some { header := colorize env body opts.colors.date }
  | _ => none

/-- Model of handleRegExp from handlers.ts. -/
def handleRegExp : Handler := fun env v opts =>
  match v with
  | .vregexp src => some { header := colorize env src opts.colors.regexp }
  | _ => none

/-- Model of handleArray from handlers.ts: an index loop up to
Math.min(length, maxItems), then a truncation entry when clamped. -/
def handleArray : Handler := fun env v opts =>
  match v with
  | .varr es =>
    let len := es.length
    let toShow := minClamp len opts.array.maxItems
    let children :=
      (List.range toShow).map (fun i => ({ key := toString i, value := jsIndex es i } : ChildEntry))
        ++ (if toShow < len then [truncationEntry (len - toShow)] else [])
    let label := if opts.array.showLength then "Array(" ++ toString len ++ ")" else "Array"
    some { header := colorize env label opts.colors.array, children := children }
  | _ => none

/-- Model of handleSet from handlers.ts: iterate elements with a
counter that stops at Math.min(size, maxItems). -/
def handleSet : Handler := fun env v opts =>
  match v with
  | .vset es =>
    let size := es.length
    let toShow := minClamp size opts.set.maxItems
    let children :=
      ((es.take toShow).enum).map
          (fun p => ({ key := toString p.1, value := p.2 } : ChildEntry))
        ++ (if toShow < size then [truncationEntry (size - toShow)] else [])
    let label := if opts.set.showSize then "Set(" ++ toString size ++ ")" else "Set"
    some { header := colorize env label opts.colors.set, children := children }
  | _ => none

/-- Model of handleMap from handlers.ts: iterate entries with a
counter that stops at Math.min(size, maxItems); every entry carries
the configured divider. -/
def handleMap : Handler := fun env v opts =>
  match v with
  | .vmap ps =>
    let size := ps.length
    let toShow := minClamp size opts.map.maxItems
    let children :=
      (ps.take toShow).map
          (fun p => ({ key := p.1, value := p.2, divider := some opts.map.divider } : ChildEntry))
        ++ (if toShow < size then [truncationEntry (size - toShow)] else [])
    let label := if opts.map.showSize then "Map(" ++ toString size ++ ")" else "Map"
    some { header := colorize env label opts.colors.map, children := children }
  | _ => none

/-- Model of handleFunction from handlers.ts; the class-constructor
case is a distinct constructor of the value model, so the isClass
guard is the pattern match. -/
def handleFunction : Handler := fun env v opts =>
  match v with
  | .vfunc name =>
    let n := if name = "" then "anonymous" else name
    some { header := colorize env ("Function(" ++ n ++ ")") opts.colors.function }
  | _ => none

/-- Model of handleClass from handlers.ts. -/
def handleClass : Handler := fun env v opts =>
  match v with
  | .vclass name =>
    let n := if name = "" then "anonymous" else name
    some { header := colorize env ("Class(" ++ n ++ ")") opts.colors.cls }
  | _ => none

/-- Model of handleObject from handlers.ts: Object.keys in
enumeration order, optionally sorted, clamped by maxKeys, each key
looked up in the object. -/
def handleObject : Handler := fun env v opts =>
  match v with
  | .vobj ps =>
    let keys0 := ps.map Prod.fst
    let keys := if opts.object.sortKeys then sortStrs keys0 else keys0
    let toShow := minClamp keys.length opts.object.maxKeys
    let children :=
      (keys.take toShow).map (fun k => ({ key := k, value := lookupVal ps k } : ChildEntry))
        ++ (if toShow < keys.length then [truncationEntry (keys.length - toShow)] else [])
    some { header := colorize env "Object\x7b\x7d" opts.colors.object, children := children }
  | _ => none

/-- Model of handleInstance from handlers.ts: own keys in enumeration
order (never sorted), clamped by the object section maxKeys; the
constructor name falls back to Object when empty. -/
def handleInstance : Handler := fun env v opts =>
  match v with
  | .vinstance ctorName ps =>
    let name := if ctorName = "" then "Object" else ctorName
    let ownKeys := ps.map Prod.fst
    let toShow := minClamp ownKeys.length opts.object.maxKeys
    let children :=
      (ownKeys.take toShow).map (fun k => ({ key := k, value := lookupVal ps k } : ChildEntry))
        ++ (if toShow < ownKeys.length then [truncationEntry (ownKeys.length - toShow)] else [])
    some { header := colorize env (name ++ "\x7b\x7d") opts.colors.inst, children := children }
  | _ => none

/-- The handler chain, in the order of handlers.ts (more specific
first). -/
def handlers : List Handler :=
  [handlePrimitive, handleString, handleDate, handleRegExp, handleArray,
   handleSet, handleMap, handleFunction, handleClass, handleInstance, handleObject]

/-- First-match evaluation of a handler chain. -/
def runHandlers : List Handler → ColorEnv → Value → ResolvedOptions → Option RenderResult
  | [], _, _, _ => none
  | h :: hs, env, v, opts =>
    match h env v opts with
    | some r => some r
    | none => runHandlers hs env v opts

/-- Model of renderValue from handlers.ts: the first matching handler
wins, with the Unknown fallback. -/
def renderValue (env : ColorEnv) (v : Value) (opts : ResolvedOptions) : RenderResult :=
  (runHandlers handlers env v opts).getD { header := "Unknown" }

/-- Unfolded height of an array value. -/
theorem height_varr (es : List Value) :
    (Value.varr es).height = 1 + (es.map Value.height).foldr max 0 := by
  rw [Value.height]
  rw [List.attach_map_val]

/-- Unfolded height of a set value. -/
theorem height_vset (es : List Value) :
    (Value.vset es).height = 1 + (es.map Value.height).foldr max 0 := by
  rw [Value.height]
  rw [List.attach_map_val]

/-- Unfolded height of a map value. -/
theorem height_vmap (ps : List (String × Value)) :
    (Value.vmap ps).height = 1 + (ps.map (fun p => p.2.height)).foldr max 0 := by
  rw [Value.height]
  rw [List.attach_map_val ps (fun p => p.2.height)]

/-- Unfolded height of a plain-object value. -/
theorem height_vobj (ps : List (String × Value)) :
    (Value.vobj ps).height = 1 + (ps.map (fun p => p.2.height)).foldr max 0 := by
  rw [Value.height]
  rw [List.attach_map_val ps (fun p => p.2.height)]

/-- Unfolded height of a class-instance value. -/
theorem height_vinstance (nm : String) (ps : List (String × Value)) :
    (Value.vinstance nm ps).height = 1 + (ps.map (fun p => p.2.height)).foldr max 0 := by
  rw [Value.height]
  rw [List.attach_map_val ps (fun p => p.2.height)]

/-- Height of the undefined value. -/
theorem height_vundefined : Value.vundefined.height = 0 := by
  simp [Value.height]

/-- Height of a string value. -/
theorem height_vstr (s : String) : (Value.vstr s).height = 0 := by
  simp [Value.height]

/-- A member of a list is bounded by the fold of max over its image. -/
theorem le_foldrMax {α : Type} (f : α → Nat) {a : α} {l : List α} (h : a ∈ l) :
    f a ≤ (l.map f).foldr max 0 := by
  induction l with
  | nil => cases h
  | cons b bs ih =>
    simp only [List.map_cons, List.foldr_cons]
    rcases List.mem_cons.mp h with h1 | h2
    · subst h1
      exact Nat.le_max_left _ _
    · exact le_trans (ih h2) (Nat.le_max_right _ _)

/-- Indexing an array yields a value of bounded height. -/
theorem height_jsIndex_le (es : List Value) (i : Nat) :
    (jsIndex es i).height ≤ (es.map Value.height).foldr max 0 := by
  by_cases h : i < es.length
  · have hm : es.getD i Value.vundefined ∈ es := by
      rw [List.getD_eq_getElem es Value.vundefined h]
      exact List.getElem_mem h
    exact le_foldrMax Value.height hm
  · have he : es[i]? = none := List.getElem?_eq_none (by omega)
    simp [jsIndex, List.getD, he, height_vundefined]

/-- Property lookup yields a value of bounded height. -/
theorem height_lookupVal_le (ps : List (String × Value)) (k : String) :
    (lookupVal ps k).height ≤ (ps.map (fun p => p.2.height)).foldr max 0 := by
  induction ps with
  | nil =>
    simp [lookupVal, height_vundefined]
  | cons p rest ih =>
    obtain ⟨k2, v⟩ := p
    by_cases h : k2 = k
    · simp only [lookupVal, if_pos h, List.map_cons, List.foldr_cons]
      exact Nat.le_max_left _ _
    · simp only [lookupVal, if_neg h, List.map_cons, List.foldr_cons]
      exact le_trans ih (Nat.le_max_right _ _)

/-- Evaluation of the handler chain on an array value. -/
theorem renderValue_varr (env : ColorEnv) (opts : ResolvedOptions) (es : List Value) :
    renderValue env (Value.varr es) opts =
      { header := colorize env
          (if opts.array.showLength then "Array(" ++ toString es.length ++ ")" else "Array")
          opts.colors.array,
        children :=
          (List.range (minClamp es.length opts.array.maxItems)).map
              (fun i => ({ key := toString i, value := jsIndex es i } : ChildEntry))
            ++ (if minClamp es.length opts.array.maxItems < es.length
                then [truncationEntry (es.length - minClamp es.length opts.array.maxItems)]
                else []) } := rfl

/-- Evaluation of the handler chain on a set value. -/
theorem renderValue_vset (env : ColorEnv) (opts : ResolvedOptions) (es : List Value) :
    renderValue env (Value.vset es) opts =
      { header := colorize env
          (if opts.set.showSize then "Set(" ++ toString es.length ++ ")" else "Set")
          opts.colors.set,
        children :=
          ((es.take (minClamp es.length opts.set.maxItems)).enum).map
              (fun p => ({ key := toString p.1, value := p.2 } : ChildEntry))
            ++ (if minClamp es.length opts.set.maxItems < es.length
                then [truncationEntry (es.length - minClamp es.length opts.set.maxItems)]
                else []) } := rfl

/-- Evaluation of the handler chain on a map value. -/
theorem renderValue_vmap (env : ColorEnv) (opts : ResolvedOptions)
    (ps : List (String × Value)) :
    renderValue env (Value.vmap ps) opts =
      { header := colorize env
          (if opts.map.showSize then "Map(" ++ toString ps.length ++ ")" else "Map")
          opts.colors.map,
        children :=
          (ps.take (minClamp ps.length opts.map.maxItems)).map
              (fun p => ({ key := p.1, value := p.2,
                           divider := some opts.map.divider } : ChildEntry))
            ++ (if minClamp ps.length opts.map.maxItems < ps.length
                then [truncationEntry (ps.length - minClamp ps.length opts.map.maxItems)]
                else []) } := rfl

/-- Evaluation of the handler chain on a plain-object value. -/
theorem renderValue_vobj (env : ColorEnv) (opts : ResolvedOptions)
    (ps : List (String × Value)) :
    renderValue env (Value.vobj ps) opts =
      { header := colorize env "Object\x7b\x7d" opts.colors.object,
        children :=
          (((if opts.object.sortKeys then sortStrs (ps.map Prod.fst)
             else ps.map Prod.fst).take
              (minClamp (if opts.object.sortKeys then sortStrs (ps.map Prod.fst)
                         else ps.map Prod.fst).length opts.object.maxKeys)).map
              (fun k => ({ key := k, value := lookupVal ps k } : ChildEntry)))
            ++ (if minClamp (if opts.object.sortKeys then sortStrs (ps.map Prod.fst)
                             else ps.map Prod.fst).length opts.object.maxKeys
                    < (if opts.object.sortKeys then sortStrs (ps.map Prod.fst)
                       else ps.map Prod.fst).length
                then [truncationEntry
                        ((if opts.object.sortKeys then sortStrs (ps.map Prod.fst)
                          else ps.map Prod.fst).length
                          - minClamp (if opts.object.sortKeys then sortStrs (ps.map Prod.fst)
                                      else ps.map Prod.fst).length opts.object.maxKeys)]
                else []) } := rfl

/-- Evaluation of the handler chain on a class-instance value. -/
theorem renderValue_vinstance (env : ColorEnv) (opts : ResolvedOptions)
    (nm : String) (ps : List (String × Value)) :
    renderValue env (Value.vinstance nm ps) opts =
      { header := colorize env
          ((if nm = "" then "Object" else nm) ++ "\x7b\x7d") opts.colors.inst,
        children :=
          ((ps.map Prod.fst).take
              (minClamp (ps.map Prod.fst).length opts.object.maxKeys)).map
              (fun k => ({ key := k, value := lookupVal ps k } : ChildEntry))
            ++ (if minClamp (ps.map Prod.fst).length opts.object.maxKeys
                    < (ps.map Prod.fst).length
                then [truncationEntry
                        ((ps.map Prod.fst).length
                          - minClamp (ps.map Prod.fst).length opts.object.maxKeys)]
                else []) } := rfl

/-- The value of a truncation entry is a bare string, of height zero. -/
theorem truncHeight (n : Nat) : (truncationEntry n).value.height = 0 := height_vstr _

/-- Every child produced by the handler chain has strictly smaller
height than its parent value: the regular children are member values
of the container and the truncation marker is a bare string. -/
theorem children_height_lt (env : ColorEnv) (opts : ResolvedOptions) (v : Value)
    (c : ChildEntry) (hc : c ∈ (renderValue env v opts).children) :
    c.value.height < v.height := by
  cases v with
  | varr es =>
    rw [renderValue_varr] at hc
    rw [height_varr]
    rcases List.mem_append.mp hc with h1 | h2
    · obtain ⟨i, hi, hceq⟩ := List.mem_map.mp h1
      have hcv : c.value = jsIndex es i := by rw [← hceq]
      rw [hcv]
      have := height_jsIndex_le es i
      omega
    · have hct : c = truncationEntry (es.length - minClamp es.length opts.array.maxItems) := by
        by_cases hlt : minClamp es.length opts.array.maxItems < es.length
        · rw [if_pos hlt] at h2
          exact List.mem_singleton.mp h2
        · rw [if_neg hlt] at h2
          cases h2
      rw [hct]
      have : (truncationEntry (es.length - minClamp es.length opts.array.maxItems)).value.height
          = 0 := height_vstr _
      omega
  | vset es =>
    rw [renderValue_vset] at hc
    rw [height_vset]
    rcases List.mem_append.mp hc with h1 | h2
    · obtain ⟨p, hp, hceq⟩ := List.mem_map.mp h1
      have hcv : c.value = p.2 := by rw [← hceq]
      rw [hcv]
      have hmem : p.2 ∈ es := by
        have h1 : p.2 ∈ ((es.take (minClamp es.length opts.set.maxItems)).enum).map Prod.snd :=
          List.mem_map_of_mem Prod.snd hp
        rw [List.enum_map_snd] at h1
        exact List.mem_of_mem_take h1
      have := le_foldrMax Value.height hmem
      omega
    · have hct : c = truncationEntry (es.length - minClamp es.length opts.set.maxItems) := by
        by_cases hlt : minClamp es.length opts.set.maxItems < es.length
        · rw [if_pos hlt] at h2
          exact List.mem_singleton.mp h2
        · rw [if_neg hlt] at h2
          cases h2
      rw [hct]
      have : (truncationEntry (es.length - minClamp es.length opts.set.maxItems)).value.height
          = 0 := height_vstr _
      omega
  | vmap ps =>
    rw [renderValue_vmap] at hc
    rw [height_vmap]
    rcases List.mem_append.mp hc with h1 | h2
    · obtain ⟨p, hp, hceq⟩ := List.mem_map.mp h1
      have hcv : c.value = p.2 := by rw [← hceq]
      rw [hcv]
      have hmem : p ∈ ps := List.mem_of_mem_take hp
      have hb := le_foldrMax (fun q : String × Value => q.2.height) hmem
      simp only [] at hb
      omega
    · have hct : c = truncationEntry (ps.length - minClamp ps.length opts.map.maxItems) := by
        by_cases hlt : minClamp ps.length opts.map.maxItems < ps.length
        · rw [if_pos hlt] at h2
          exact List.mem_singleton.mp h2
        · rw [if_neg hlt] at h2
          cases h2
      rw [hct]
      have : (truncationEntry (ps.length - minClamp ps.length opts.map.maxItems)).value.height
          = 0 := height_vstr _
      omega
  | vobj ps =>
    rw [renderValue_vobj] at hc
    rw [height_vobj]
    rcases List.mem_append.mp hc with h1 | h2
    · obtain ⟨k, hk, hceq⟩ := List.mem_map.mp h1
      have hcv : c.value = lookupVal ps k := by rw [← hceq]
      rw [hcv]
      have := height_lookupVal_le ps k
      omega
    · have hct : c ∈ [truncationEntry ((if opts.object.sortKeys then sortStrs (ps.map Prod.fst)
          else ps.map Prod.fst).length
          - minClamp (if opts.object.sortKeys then sortStrs (ps.map Prod.fst)
                      else ps.map Prod.fst).length opts.object.maxKeys)] := by
        by_cases hlt : minClamp (if opts.object.sortKeys then sortStrs (ps.map Prod.fst)
            else ps.map Prod.fst).length opts.object.maxKeys
            < (if opts.object.sortKeys then sortStrs (ps.map Prod.fst)
               else ps.map Prod.fst).length
        · rw [if_pos hlt] at h2
          exact h2
        · rw [if_neg hlt] at h2
          cases h2
      have hc2 := List.mem_singleton.mp hct
      rw [hc2, truncHeight]
      omega
  | vinstance nm ps =>
    rw [renderValue_vinstance] at hc
    rw [height_vinstance]
    rcases List.mem_append.mp hc with h1 | h2
    · obtain ⟨k, hk, hceq⟩ := List.mem_map.mp h1
      have hcv : c.value = lookupVal ps k := by rw [← hceq]
      rw [hcv]
      have := height_lookupVal_le ps k
      omega
    · have hct : c = truncationEntry ((ps.map Prod.fst).length
          - minClamp (ps.map Prod.fst).length opts.object.maxKeys) := by
        by_cases hlt : minClamp (ps.map Prod.fst).length opts.object.maxKeys
            < (ps.map Prod.fst).length
        · rw [if_pos hlt] at h2
          exact List.mem_singleton.mp h2
        · rw [if_neg hlt] at h2
          cases h2
      rw [hct]
      have : (truncationEntry ((ps.map Prod.fst).length
          - minClamp (ps.map Prod.fst).length opts.object.maxKeys)).value.height
          = 0 := height_vstr _
      omega
  | vnull => cases hc
  | vundefined => cases hc
  | vbool b => cases hc
  | vnum nan text => cases hc
  | vbigint digits => cases hc
  | vsymbol desc => cases hc
  | vstr s =>
    have : (renderValue env (Value.vstr s) opts).children = [] := rfl
    rw [this] at hc
    cases hc
  | vdate iso locale => cases hc
  | vregexp src => cases hc
  | vfunc name => cases hc
  | vclass name => cases hc

/-- Whether the depth limit rejects a node, from the guard
depth > this.opts.maxDepth in walk; the infinite sentinel rejects
nothing. -/
def depthExceeds (maxDepth : Option Nat) (depth : Nat) : Bool :=
  match maxDepth with
  | none => false
  | some m => decide (m < depth)

/-- The structural truncation-marker test of walk in object-tree.ts:
a string value that starts with a plus sign and contains the word
more.  Note that the test inspects the value, not the sentinel key of
the child entry. -/
def isTruncVal : Value → Bool
  | .vstr s => jsStartsWith s "+" && jsIncludes s "more"
  | _ => false

/-- The string carried by a string value (empty otherwise); used by
the marker branch of the walker, which prints the value itself. -/
def strOf : Value → String
  | .vstr s => s
  | _ => ""

/-- The key-label part of a line: keyLabel followed by the divider
when a key label is present, empty otherwise. -/
def labelPart (keyLabel : Option String) (divider : String) : String :=
  match keyLabel with
  | some k => k ++ divider
  | none => ""

/-- Model of the connector helper of object-tree.ts: colorize a
connector character with the connector color; the chalk.level test is
folded into the environment. -/
def connector (env : ColorEnv) (opts : ResolvedOptions) (c : String) : String :=
  env opts.connectorColor c

/-- Model of buildPrefix from object-tree.ts: one pipe-or-blank plus
indent per ancestor level, then the tee or ell connector when this
node has a last/not-last status. -/
def buildLead (env : ColorEnv) (opts : ResolvedOptions) (levels : List Bool)
    (isLast : Option Bool) : String :=
  let base := levels.foldl
    (fun acc hasMoreSiblings =>
      acc ++ (if hasMoreSiblings then connector env opts opts.chars.pipe ++ opts.indent
              else " " ++ opts.indent)) ""
  match isLast with
  | none => base
  | some true => base ++ connector env opts opts.chars.ell ++ " "
  | some false => base ++ connector env opts opts.chars.tee ++ " "

/-- Model of ObjectTree.walk from object-tree.ts.  The lines array is
returned instead of mutated; the recursion over the children carries
the membership proof needed for termination. -/
def walk (env : ColorEnv) (opts : ResolvedOptions) (value : Value) (levels : List Bool)
    (depth : Nat) (keyLabel : Option String) (isLast : Option Bool) (divider : String) :
    List String :=
  if depthExceeds opts.maxDepth depth then []
  else if isTruncVal value then
    [buildLead env opts levels isLast ++ labelPart keyLabel divider
      ++ env "gray" (strOf value)]
  else
    let result := renderValue env value opts
    let own : List String :=
      match keyLabel with
      | some k => [buildLead env opts levels isLast ++ k ++ divider ++ result.header]
      | none =>
        if opts.showRoot || decide (0 < depth) then
          [buildLead env opts levels isLast ++ result.header]
        else []
    let kids : List String :=
      if 0 < result.children.length then
        let childLevels :=
          if depth == 0 then levels else levels ++ [decide (isLast ≠ some true)]
        let n := result.children.length
        ((result.children.attach.enum).map
          (fun p =>
            walk env opts p.2.1.value childLevels (depth + 1) (some p.2.1.key)
              (some (decide (p.1 = n - 1))) (p.2.1.divider.getD ": "))).flatten
      else []
    own ++ kids
termination_by value.height
decreasing_by
  exact children_height_lt env opts value p.2.1 p.2.2

/-- Model of ObjectTree.render from object-tree.ts: walk the root
with no levels, depth zero, no key label, no last/not-last status and
the default divider. -/
def render (env : ColorEnv) (opts : ResolvedOptions) (root : Value) : List String :=
  walk env opts root [] 0 none none ": "

/-- Fuel-indexed twin of walk with the same body, structurally
recursive on the fuel so that concrete runs reduce in the kernel;
walk agrees with it whenever the fuel exceeds the height of the
value. -/
def walkF (fuel : Nat) (env : ColorEnv) (opts : ResolvedOptions) (value : Value)
    (levels : List Bool) (depth : Nat) (keyLabel : Option String) (isLast : Option Bool)
    (divider : String) : List String :=
  match fuel with
  | 0 => []
  | fuel + 1 =>
    if depthExceeds opts.maxDepth depth then []
    else if isTruncVal value then
      [buildLead env opts levels isLast ++ labelPart keyLabel divider
        ++ env "gray" (strOf value)]
    else
      let result := renderValue env value opts
      let own : List String :=
        match keyLabel with
        | some k => [buildLead env opts levels isLast ++ k ++ divider ++ result.header]
        | none =>
          if opts.showRoot || decide (0 < depth) then
            [buildLead env opts levels isLast ++ result.header]
          else []
      let kids : List String :=
        if 0 < result.children.length then
          let childLevels :=
            if depth == 0 then levels else levels ++ [decide (isLast ≠ some true)]
          let n := result.children.length
          ((result.children.attach.enum).map
            (fun p =>
              walkF fuel env opts p.2.1.value childLevels (depth + 1) (some p.2.1.key)
                (some (decide (p.1 = n - 1))) (p.2.1.divider.getD ": "))).flatten
        else []
      own ++ kids

/-- The walker agrees with its fuel-indexed twin when the fuel
strictly exceeds the height of the value. -/
theorem walk_eq_walkF (env : ColorEnv) (opts : ResolvedOptions) (fuel : Nat) :
    ∀ (value : Value) (levels : List Bool) (depth : Nat) (keyLabel : Option String)
      (isLast : Option Bool) (divider : String), value.height < fuel →
      walk env opts value levels depth keyLabel isLast divider
        = walkF fuel env opts value levels depth keyLabel isLast divider := by
  induction fuel with
  | zero =>
    intro value _ _ _ _ _ h
    omega
  | succ fuel ih =>
    intro value levels depth keyLabel isLast divider h
    rw [walk, walkF]
    by_cases hd : depthExceeds opts.maxDepth depth
    · rw [if_pos hd, if_pos hd]
    · rw [if_neg hd, if_neg hd]
      by_cases ht : isTruncVal value
      · rw [if_pos ht, if_pos ht]
      · rw [if_neg ht, if_neg ht]
        simp only []
        congr 1
        by_cases hk : 0 < (renderValue env value opts).children.length
        · rw [if_pos hk, if_pos hk]
          congr 1
          apply List.map_congr_left
          intro p hp
          apply ih
          have hlt := children_height_lt env opts value p.2.1 p.2.2
          omega
        · rw [if_neg hk, if_neg hk]

/-- Concrete-evaluation helper: a render is a fueled walk from the
root for any sufficient fuel. -/
theorem render_eq_walkF (env : ColorEnv) (opts : ResolvedOptions) (root : Value)
    (fuel : Nat) (h : root.height < fuel) :
    render env opts root = walkF fuel env opts root [] 0 none none ": " := by
  rw [render, walk_eq_walkF env opts fuel root [] 0 none none ": " h]

/-- The depth guard never rejects depth zero. -/
theorem depthExceeds_zero (md : Option Nat) : depthExceeds md 0 = false := by
  cases md with
  | none => rfl
  | some m => simp [depthExceeds]

/-- A segment found in the right part of an append is found in the
whole list. -/
theorem hasSeg_append_right (sub l2 : List Char) (l1 : List Char)
    (h : hasSeg sub l2 = true) : hasSeg sub (l1 ++ l2) = true := by
  induction l1 with
  | nil => simpa using h
  | cons a as ih =>
    rw [List.cons_append, hasSeg]
    rw [Bool.or_eq_true]
    exact Or.inr ih

/-- The text of a truncation entry matches the walker's structural
marker test: it starts with a plus sign and contains the word more. -/
theorem truncation_text_matches (n : Nat) :
    (jsStartsWith ("+" ++ toString n ++ " more") "+"
      && jsIncludes ("+" ++ toString n ++ " more") "more") = true := by
  rw [Bool.and_eq_true]
  constructor
  · rw [jsStartsWith]
    have h : ("+" ++ toString n ++ " more").toList
        = ("+".toList ++ ((toString n).toList ++ " more".toList)) := by
      rw [String.toList]
      rfl
    rw [h]
    rfl
  · rw [jsIncludes]
    have h : ("+" ++ toString n ++ " more").toList
        = (("+".toList ++ (toString n).toList) ++ " more".toList) := by
      rw [String.toList]
      rfl
    rw [h]
    apply hasSeg_append_right
    decide

/-- The string comparison is total. -/
theorem lexLe_total (as bs : List Char) : lexLe as bs = true ∨ lexLe bs as = true := by
  induction as generalizing bs with
  | nil => exact Or.inl rfl
  | cons a as ih =>
    cases bs with
    | nil => exact Or.inr rfl
    | cons b bs2 =>
      by_cases h1 : a.toNat < b.toNat
      · left
        rw [lexLe, if_pos h1]
      · by_cases h2 : b.toNat < a.toNat
        · right
          rw [lexLe, if_pos h2]
        · have e1 : lexLe (a :: as) (b :: bs2) = lexLe as bs2 := by
            rw [lexLe, if_neg h1, if_neg h2]
          have e2 : lexLe (b :: bs2) (a :: as) = lexLe bs2 as := by
            rw [lexLe, if_neg h2, if_neg h1]
          rw [e1, e2]
          exact ih bs2

/-- The string comparison is total. -/
theorem strLe_total (a b : String) : strLe a b = true ∨ strLe b a = true :=
  lexLe_total a.toList b.toList

/-- Membership after ordered insertion. -/
theorem mem_insOrd (a x : String) (l : List String) :
    a ∈ insOrd x l ↔ a = x ∨ a ∈ l := by
  induction l with
  | nil => simp [insOrd]
  | cons y ys ih =>
    rw [insOrd]
    by_cases h : strLe x y
    · rw [if_pos h]
      simp
    · rw [if_neg h]
      simp only [List.mem_cons, ih]
      tauto

/-- The string comparison is transitive. -/
theorem lexLe_trans : ∀ as bs cs : List Char,
    lexLe as bs = true → lexLe bs cs = true → lexLe as cs = true := by
  intro as
  induction as with
  | nil =>
    intro bs cs _ _
    rfl
  | cons a as ih =>
    intro bs cs h1 h2
    cases bs with
    | nil => simp [lexLe] at h1
    | cons b bs =>
      cases cs with
      | nil => simp [lexLe] at h2
      | cons c cs =>
        by_cases hab : a.toNat < b.toNat
        · by_cases hbc : b.toNat < c.toNat
          · rw [lexLe, if_pos (show a.toNat < c.toNat by omega)]
          · by_cases hcb : c.toNat < b.toNat
            · rw [lexLe, if_neg hbc, if_pos hcb] at h2
              simp at h2
            · rw [lexLe, if_pos (show a.toNat < c.toNat by omega)]
        · by_cases hba : b.toNat < a.toNat
          · rw [lexLe, if_neg hab, if_pos hba] at h1
            simp at h1
          · rw [lexLe, if_neg hab, if_neg hba] at h1
            by_cases hbc : b.toNat < c.toNat
            · rw [lexLe, if_pos (show a.toNat < c.toNat by omega)]
            · by_cases hcb : c.toNat < b.toNat
              · rw [lexLe, if_neg hbc, if_pos hcb] at h2
                simp at h2
              · rw [lexLe, if_neg hbc, if_neg hcb] at h2
                rw [lexLe, if_neg (show ¬ a.toNat < c.toNat by omega),
                  if_neg (show ¬ c.toNat < a.toNat by omega)]
                exact ih bs cs h1 h2

/-- The string comparison is transitive. -/
theorem strLe_trans (a b c : String) (h1 : strLe a b = true) (h2 : strLe b c = true) :
    strLe a c = true :=
  lexLe_trans a.toList b.toList c.toList h1 h2

/-- Ordered insertion preserves sortedness. -/
theorem pairwise_insOrd (x : String) (l : List String)
    (h : List.Pairwise (fun a b => strLe a b = true) l) :
    List.Pairwise (fun a b => strLe a b = true) (insOrd x l) := by
  induction l with
  | nil =>
    rw [insOrd]
    exact List.pairwise_singleton _ x
  | cons y ys ih =>
    rcases List.pairwise_cons.mp h with ⟨hy, hys⟩
    rw [insOrd]
    by_cases hle : strLe x y = true
    · rw [if_pos hle]
      apply List.Pairwise.cons
      · intro b hb
        rcases List.mem_cons.mp hb with h1 | h2
        · rw [h1]
          exact hle
        · exact strLe_trans x y b hle (hy b h2)
      · exact h
    · rw [if_neg hle]
      apply List.Pairwise.cons
      · intro b hb
        rcases (mem_insOrd b x ys).mp hb with h1 | h2
        · rw [h1]
          rcases strLe_total x y with hxy | hyx
          · exact absurd hxy hle
          · exact hyx
        · exact hy b h2
      · exact ih hys

/-- The key sort produces a sorted list. -/
theorem pairwise_sortStrs (l : List String) :
    List.Pairwise (fun a b => strLe a b = true) (sortStrs l) := by
  induction l with
  | nil => exact List.Pairwise.nil
  | cons x xs ih =>
    rw [sortStrs]
    exact pairwise_insOrd x (sortStrs xs) ih

/-- Ordered insertion adds one element to the length. -/
theorem length_insOrd (x : String) (l : List String) :
    (insOrd x l).length = l.length + 1 := by
  induction l with
  | nil => rfl
  | cons y ys ih =>
    rw [insOrd]
    by_cases hle : strLe x y = true
    · rw [if_pos hle]
      rfl
    · rw [if_neg hle]
      simp [ih]

/-- The key sort preserves length. -/
theorem length_sortStrs (l : List String) : (sortStrs l).length = l.length := by
  induction l with
  | nil => rfl
  | cons x xs ih =>
    rw [sortStrs, length_insOrd, ih]
    rfl

/-- The indexed loop of handleArray enumerates a list segment: mapping
jsIndex over an initial range is the take of the list. -/
theorem range_map_jsIndex (es : List Value) :
    ∀ n : Nat, n ≤ es.length → (List.range n).map (jsIndex es) = es.take n := by
  intro n
  induction n with
  | zero =>
    intro _
    rfl
  | succ m ih =>
    intro h
    rw [List.range_succ, List.map_append, ih (by omega)]
    have hm : m < es.length := by omega
    have hv : jsIndex es m = es[m] := by
      rw [jsIndex, List.getD_eq_getElem es Value.vundefined hm]
    rw [List.take_succ]
    have hg : es[m]? = some es[m] := List.getElem?_eq_getElem hm
    rw [hg]
    simp [hv]

/-- For a positive limit, the JS slice used by string truncation is a
plain take of the first maxLength - 1 characters. -/
theorem jsSliceTo_pos (s : String) (m : Nat) (h : 1 ≤ m) :
    jsSliceTo s (Int.ofNat m - 1) = String.mk (s.toList.take (m - 1)) := by
  rw [jsSliceTo]
  simp only [Int.ofNat_eq_coe]
  have he : ¬ ((m : Int) - 1 < 0) := by omega
  simp only [if_neg he]
  congr 1
  by_cases hc : (m - 1 : Nat) ≤ s.toList.length
  · have : (min ((m : Int) - 1) ((s.toList.length : Nat) : Int)).toNat = m - 1 := by
      omega
    rw [this]
  · have h1 : (min ((m : Int) - 1) ((s.toList.length : Nat) : Int)).toNat
        = s.toList.length := by omega
    rw [h1]
    rw [List.take_length]
    rw [List.take_of_length_le (by omega)]

/-- A flattened map over children is empty when every recursive walk
is empty. -/
theorem flatten_map_nil {α β : Type} (l : List α) (f : α → List β)
    (h : ∀ x ∈ l, f x = []) : (l.map f).flatten = [] := by
  induction l with
  | nil => rfl
  | cons a as ih =>
    rw [List.map_cons, List.flatten_cons, h a (List.mem_cons_self a as),
      List.nil_append]
    exact ih (fun x hx => h x (List.mem_cons_of_mem a hx))

/-- The clamp never exceeds the true length. -/
theorem minClamp_le (len : Nat) (m : Option Nat) : minClamp len m ≤ len := by
  cases m with
  | none => exact le_refl len
  | some k => exact Nat.min_le_left len k

/-- Children of an array node under a finite limit: the regular part
is the take of the elements, the length is the clamp plus the marker,
and past the regular part stands exactly the marker when clamped. -/
theorem arrayChildren_spec (env : ColorEnv) (opts : ResolvedOptions) (es : List Value)
    (MA : Nat) (hA : opts.array.maxItems = some MA) :
    (((renderValue env (Value.varr es) opts).children.take (min es.length MA)).map
        (fun c => c.value) = es.take (min es.length MA))
      ∧ (renderValue env (Value.varr es) opts).children.length
          = min es.length MA + (if MA < es.length then 1 else 0)
      ∧ (renderValue env (Value.varr es) opts).children.drop (min es.length MA)
          = (if MA < es.length then [truncationEntry (es.length - MA)] else []) := by
  have hch : (renderValue env (Value.varr es) opts).children
      = (List.range (min es.length MA)).map
          (fun i => ({ key := toString i, value := jsIndex es i } : ChildEntry))
        ++ (if MA < es.length then [truncationEntry (es.length - MA)] else []) := by
    rw [renderValue_varr, hA]
    simp only [minClamp]
    congr 1
    by_cases hlt : MA < es.length
    · rw [if_pos (by omega), if_pos hlt]
      have : es.length - min es.length MA = es.length - MA := by omega
      rw [this]
    · rw [if_neg (by omega), if_neg hlt]
  have hB : ((List.range (min es.length MA)).map
      (fun i => ({ key := toString i, value := jsIndex es i } : ChildEntry))).length
      = min es.length MA := by
    rw [List.length_map, List.length_range]
  refine ⟨?_, ?_, ?_⟩
  · rw [hch, List.take_left' hB, List.map_map]
    exact range_map_jsIndex es (min es.length MA) (Nat.min_le_left _ _)
  · rw [hch, List.length_append, hB]
    by_cases hlt : MA < es.length
    · rw [if_pos hlt, if_pos hlt]
      rfl
    · rw [if_neg hlt, if_neg hlt]
      rfl
  · rw [hch, List.drop_left' hB]

/-- Children of a set node under a finite limit. -/
theorem setChildren_spec (env : ColorEnv) (opts : ResolvedOptions) (es : List Value)
    (MS : Nat) (hS : opts.set.maxItems = some MS) :
    (((renderValue env (Value.vset es) opts).children.take (min es.length MS)).map
        (fun c => c.value) = es.take (min es.length MS))
      ∧ (renderValue env (Value.vset es) opts).children.length
          = min es.length MS + (if MS < es.length then 1 else 0)
      ∧ (renderValue env (Value.vset es) opts).children.drop (min es.length MS)
          = (if MS < es.length then [truncationEntry (es.length - MS)] else []) := by
  have hch : (renderValue env (Value.vset es) opts).children
      = ((es.take (min es.length MS)).enum).map
          (fun p => ({ key := toString p.1, value := p.2 } : ChildEntry))
        ++ (if MS < es.length then [truncationEntry (es.length - MS)] else []) := by
    rw [renderValue_vset, hS]
    simp only [minClamp]
    congr 1
    by_cases hlt : MS < es.length
    · rw [if_pos (by omega), if_pos hlt]
      have : es.length - min es.length MS = es.length - MS := by omega
      rw [this]
    · rw [if_neg (by omega), if_neg hlt]
  have hB : (((es.take (min es.length MS)).enum).map
      (fun p => ({ key := toString p.1, value := p.2 } : ChildEntry))).length
      = min es.length MS := by
    rw [List.length_map, List.enum_length, List.length_take]
    omega
  refine ⟨?_, ?_, ?_⟩
  · rw [hch, List.take_left' hB, List.map_map]
    exact List.enum_map_snd (es.take (min es.length MS))
  · rw [hch, List.length_append, hB]
    by_cases hlt : MS < es.length
    · rw [if_pos hlt, if_pos hlt]
      rfl
    · rw [if_neg hlt, if_neg hlt]
      rfl
  · rw [hch, List.drop_left' hB]

/-- Children of a map node under a finite limit; the regular children
carry the original key-value pairs in order. -/
theorem mapChildren_spec (env : ColorEnv) (opts : ResolvedOptions)
    (ps : List (String × Value)) (MM : Nat) (hM : opts.map.maxItems = some MM) :
    (((renderValue env (Value.vmap ps) opts).children.take (min ps.length MM)).map
        (fun c => (c.key, c.value)) = ps.take (min ps.length MM))
      ∧ (renderValue env (Value.vmap ps) opts).children.length
          = min ps.length MM + (if MM < ps.length then 1 else 0)
      ∧ (renderValue env (Value.vmap ps) opts).children.drop (min ps.length MM)
          = (if MM < ps.length then [truncationEntry (ps.length - MM)] else []) := by
  have hch : (renderValue env (Value.vmap ps) opts).children
      = (ps.take (min ps.length MM)).map
          (fun p => ({ key := p.1, value := p.2,
                       divider := some opts.map.divider } : ChildEntry))
        ++ (if MM < ps.length then [truncationEntry (ps.length - MM)] else []) := by
    rw [renderValue_vmap, hM]
    simp only [minClamp]
    congr 1
    by_cases hlt : MM < ps.length
    · rw [if_pos (by omega), if_pos hlt]
      have : ps.length - min ps.length MM = ps.length - MM := by omega
      rw [this]
    · rw [if_neg (by omega), if_neg hlt]
  have hB : ((ps.take (min ps.length MM)).map
      (fun p => ({ key := p.1, value := p.2,
                   divider := some opts.map.divider } : ChildEntry))).length
      = min ps.length MM := by
    rw [List.length_map, List.length_take]
    omega
  refine ⟨?_, ?_, ?_⟩
  · rw [hch, List.take_left' hB, List.map_map]
    have hid : ((fun c : ChildEntry => (c.key, c.value)) ∘ (fun p : String × Value => ({ key := p.1, value := p.2, divider := some opts.map.divider } : ChildEntry))) = id := rfl
    rw [hid, List.map_id]
  · rw [hch, List.length_append, hB]
    by_cases hlt : MM < ps.length
    · rw [if_pos hlt, if_pos hlt]
      rfl
    · rw [if_neg hlt, if_neg hlt]
      rfl
  · rw [hch, List.drop_left' hB]

/-- Children of a plain-object node under a finite key limit: the
regular part lists the (optionally sorted) keys in order, clamped,
then exactly one marker when clamped. -/
theorem objChildren_spec (env : ColorEnv) (opts : ResolvedOptions)
    (qs : List (String × Value)) (MO : Nat) (hO : opts.object.maxKeys = some MO) :
    (((renderValue env (Value.vobj qs) opts).children.take (min qs.length MO)).map
        (fun c => c.key)
      = (if opts.object.sortKeys then sortStrs (qs.map Prod.fst)
         else qs.map Prod.fst).take (min qs.length MO))
      ∧ (renderValue env (Value.vobj qs) opts).children.length
          = min qs.length MO + (if MO < qs.length then 1 else 0)
      ∧ (renderValue env (Value.vobj qs) opts).children.drop (min qs.length MO)
          = (if MO < qs.length then [truncationEntry (qs.length - MO)] else []) := by
  have hlen : (if opts.object.sortKeys then sortStrs (qs.map Prod.fst)
      else qs.map Prod.fst).length = qs.length := by
    by_cases hs : opts.object.sortKeys = true
    · rw [if_pos hs, length_sortStrs, List.length_map]
    · rw [Bool.not_eq_true] at hs
      rw [hs]
      simp
  have hch : (renderValue env (Value.vobj qs) opts).children
      = ((if opts.object.sortKeys then sortStrs (qs.map Prod.fst)
          else qs.map Prod.fst).take (min qs.length MO)).map
          (fun k => ({ key := k, value := lookupVal qs k } : ChildEntry))
        ++ (if MO < qs.length then [truncationEntry (qs.length - MO)] else []) := by
    rw [renderValue_vobj, hO]
    simp only [minClamp]
    rw [hlen]
    congr 1
    by_cases hlt : MO < qs.length
    · rw [if_pos (by omega), if_pos hlt]
      have : qs.length - min qs.length MO = qs.length - MO := by omega
      rw [this]
    · rw [if_neg (by omega), if_neg hlt]
  have hB : (((if opts.object.sortKeys then sortStrs (qs.map Prod.fst)
      else qs.map Prod.fst).take (min qs.length MO)).map
      (fun k => ({ key := k, value := lookupVal qs k } : ChildEntry))).length
      = min qs.length MO := by
    rw [List.length_map, List.length_take, hlen]
    omega
  refine ⟨?_, ?_, ?_⟩
  · rw [hch, List.take_left' hB, List.map_map]
    have hid : ((fun c : ChildEntry => c.key) ∘ (fun k : String => ({ key := k, value := lookupVal qs k } : ChildEntry))) = id := rfl
    rw [hid, List.map_id]
  · rw [hch, List.length_append, hB]
    by_cases hlt : MO < qs.length
    · rw [if_pos hlt, if_pos hlt]
      rfl
    · rw [if_neg hlt, if_neg hlt]
      rfl
  · rw [hch, List.drop_left' hB]

/-- Children of a class-instance node under a finite key limit: the
keys in enumeration order, clamped, then exactly one marker when
clamped. -/
theorem instChildren_spec (env : ColorEnv) (opts : ResolvedOptions) (nm : String)
    (rs : List (String × Value)) (MO : Nat) (hO : opts.object.maxKeys = some MO) :
    (((renderValue env (Value.vinstance nm rs) opts).children.take (min rs.length MO)).map
        (fun c => c.key) = (rs.map Prod.fst).take (min rs.length MO))
      ∧ (renderValue env (Value.vinstance nm rs) opts).children.length
          = min rs.length MO + (if MO < rs.length then 1 else 0)
      ∧ (renderValue env (Value.vinstance nm rs) opts).children.drop (min rs.length MO)
          = (if MO < rs.length then [truncationEntry (rs.length - MO)] else []) := by
  have hlen : (rs.map Prod.fst).length = rs.length := List.length_map rs Prod.fst
  have hch : (renderValue env (Value.vinstance nm rs) opts).children
      = ((rs.map Prod.fst).take (min rs.length MO)).map
          (fun k => ({ key := k, value := lookupVal rs k } : ChildEntry))
        ++ (if MO < rs.length then [truncationEntry (rs.length - MO)] else []) := by
    rw [renderValue_vinstance, hO]
    simp only [minClamp]
    rw [hlen]
    congr 1
    by_cases hlt : MO < rs.length
    · rw [if_pos (by omega), if_pos hlt]
      have : rs.length - min rs.length MO = rs.length - MO := by omega
      rw [this]
    · rw [if_neg (by omega), if_neg hlt]
  have hB : (((rs.map Prod.fst).take (min rs.length MO)).map
      (fun k => ({ key := k, value := lookupVal rs k } : ChildEntry))).length
      = min rs.length MO := by
    rw [List.length_map, List.length_take, hlen]
    omega
  refine ⟨?_, ?_, ?_⟩
  · rw [hch, List.take_left' hB, List.map_map]
    have hid : ((fun c : ChildEntry => c.key) ∘ (fun k : String => ({ key := k, value := lookupVal rs k } : ChildEntry))) = id := rfl
    rw [hid, List.map_id]
  · rw [hch, List.length_append, hB]
    by_cases hlt : MO < rs.length
    · rw [if_pos hlt, if_pos hlt]
      rfl
    · rw [if_neg hlt, if_neg hlt]
      rfl
  · rw [hch, List.drop_left' hB]

/-- A node whose depth exceeds the limit contributes no line at all. -/
theorem walk_depth_exceeded (env : ColorEnv) (opts : ResolvedOptions) (v : Value)
    (levels : List Bool) (depth : Nat) (keyLabel : Option String) (isLast : Option Bool)
    (divider : String) (h : depthExceeds opts.maxDepth depth = true) :
    walk env opts v levels depth keyLabel isLast divider = [] := by
  rw [walk, h]
  simp

/-- Options equal to the defaults except that maxDepth is zero. -/
def optsDepth0 : ResolvedOptions := { defaults with maxDepth := some 0 }

/-- Options equal to the defaults except that the string section has
maxLength zero and no quotes. -/
def optsStr0 : ResolvedOptions :=
  { defaults with string := { maxLength := 0, quotes := QuoteStyle.noQuotes } }

/-- C1 (amended): the walker recognizes a truncation marker by the
shape of the value, not by the sentinel key of the child entry: any
string value that starts with a plus sign and contains the word more
is rendered as exactly one informational line, with no recursion into
it, whatever its key label; and the text of every synthetic
truncation entry matches that shape, so genuine markers are always
rendered this way. -/
theorem C1_marker_detection (env : ColorEnv) (opts : ResolvedOptions)
    (levels : List Bool) (depth : Nat) (keyLabel : Option String)
    (isLast : Option Bool) (divider : String) (s : String)
    (hd : depthExceeds opts.maxDepth depth = false)
    (hs : (jsStartsWith s "+" && jsIncludes s "more") = true) :
    walk env opts (Value.vstr s) levels depth keyLabel isLast divider
        = [buildLead env opts levels isLast ++ labelPart keyLabel divider
            ++ env "gray" s]
      ∧ ∀ n : Nat, isTruncVal (truncationEntry n).value = true := by
  constructor
  · rw [walk, hd]
    have ht : isTruncVal (Value.vstr s) = true := by
      rw [isTruncVal]
      exact hs
    rw [ht]
    simp [strOf]
  · intro n
    have hv : (truncationEntry n).value = Value.vstr ("+" ++ toString n ++ " more") := rfl
    rw [hv, isTruncVal]
    exact truncation_text_matches n

/-- C1 counterexample: under the default options and the identity
environment, an ordinary string child whose text happens to start
with a plus sign and contain the word more is rendered through the
marker path (plain text), not as a quoted string header, so the
sentinel key plays no role in the detection. -/
theorem C1_counterexample :
    render plainEnv defaults (Value.vobj [("a", Value.vstr "+1 more")])
        = ["└─ a: +1 more"]
      ∧ ["└─ a: +1 more"]
          ≠ ["└─ a: " ++ (renderValue plainEnv (Value.vstr "+1 more") defaults).header] := by
  constructor
  · have hh : (Value.vobj [("a", Value.vstr "+1 more")]).height < 2 := by
      rw [height_vobj]
      simp [Value.height]
    rw [render_eq_walkF plainEnv defaults _ 2 hh]
    decide
  · decide

/-- C1 witness: the marker line produced for a concrete marker string
under the default options. -/
theorem C1_witness :
    depthExceeds defaults.maxDepth 1 = false
      ∧ (jsStartsWith "+4 more" "+" && jsIncludes "+4 more" "more") = true
      ∧ walk plainEnv defaults (Value.vstr "+4 more") [] 1 (some "…") (some true) ": "
          = [buildLead plainEnv defaults [] (some true) ++ labelPart (some "…") ": "
              ++ plainEnv "gray" "+4 more"] :=
  ⟨rfl, by decide,
    (C1_marker_detection plainEnv defaults [] 1 (some "…") (some true) ": " "+4 more"
      rfl (by decide)).1⟩

/-- C2 (amended): a node is omitted exactly when its depth strictly
exceeds maxDepth, and when showRoot is false the root line is skipped
and the root's children are visited with no added prefix level but at
depth 1 (not 0); consequently showRoot false with maxDepth zero
renders nothing at all (for a non-marker root). -/
theorem C2_depth_policy :
    (∀ (env : ColorEnv) (opts : ResolvedOptions) (v : Value) (levels : List Bool)
        (depth : Nat) (keyLabel : Option String) (isLast : Option Bool) (divider : String),
        depthExceeds opts.maxDepth depth = true →
        walk env opts v levels depth keyLabel isLast divider = [])
    ∧ (∀ (env : ColorEnv) (opts : ResolvedOptions) (v : Value) (levels : List Bool)
        (depth : Nat) (k : String) (b : Bool) (divider : String),
        depthExceeds opts.maxDepth depth = false →
        walk env opts v levels depth (some k) (some b) divider ≠ [])
    ∧ (∀ (env : ColorEnv) (opts : ResolvedOptions) (v : Value),
        opts.showRoot = false → isTruncVal v = false →
        0 < (renderValue env v opts).children.length →
        render env opts v
          = (((renderValue env v opts).children.attach.enum).map
              (fun p => walk env opts p.2.1.value [] 1 (some p.2.1.key)
                (some (decide (p.1 = (renderValue env v opts).children.length - 1)))
                (p.2.1.divider.getD ": "))).flatten)
    ∧ (∀ (env : ColorEnv) (opts : ResolvedOptions) (v : Value),
        opts.showRoot = false → opts.maxDepth = some 0 → isTruncVal v = false →
        render env opts v = []) := by
  refine ⟨?_, ?_, ?_, ?_⟩
  · intro env opts v levels depth keyLabel isLast divider h
    exact walk_depth_exceeded env opts v levels depth keyLabel isLast divider h
  · intro env opts v levels depth k b divider hd
    rw [walk, hd]
    by_cases ht : isTruncVal v = true
    · rw [ht]
      simp
    · rw [Bool.not_eq_true] at ht
      rw [ht]
      simp
  · intro env opts v h1 ht hc
    rw [render, walk]
    rw [depthExceeds_zero, ht, h1]
    simp only [Bool.false_eq_true, if_false]
    rw [if_pos hc]
    simp
  · intro env opts v h1 h2 ht
    rw [render, walk]
    rw [depthExceeds_zero, ht, h1]
    simp only [Bool.false_eq_true, if_false]
    by_cases hc : 0 < (renderValue env v opts).children.length
    · rw [if_pos hc]
      simp only [List.nil_append]
      apply flatten_map_nil
      intro p hp
      apply walk_depth_exceeded
      rw [h2]
      rfl
    · rw [if_neg hc]
      rfl

/-- C2 counterexample: with showRoot false and maxDepth zero, a root
object with one direct child renders no lines at all, because the
children are visited at depth 1, which already exceeds the limit. -/
theorem C2_counterexample :
    render plainEnv optsDepth0 (Value.vobj [("a", Value.vbool true)]) = []
      ∧ (renderValue plainEnv (Value.vobj [("a", Value.vbool true)])
          optsDepth0).children.length = 1
      ∧ optsDepth0.showRoot = false := by
  refine ⟨?_, rfl, rfl⟩
  have hh : (Value.vobj [("a", Value.vbool true)]).height < 2 := by
    rw [height_vobj]
    simp [Value.height]
  rw [render_eq_walkF plainEnv optsDepth0 _ 2 hh]
  decide

/-- C2 witness: the empty render of the previous root, obtained from
the amended depth policy. -/
theorem C2_witness :
    optsDepth0.showRoot = false ∧ optsDepth0.maxDepth = some 0
      ∧ isTruncVal (Value.vobj [("a", Value.vbool true)]) = false
      ∧ render plainEnv optsDepth0 (Value.vobj [("a", Value.vbool true)]) = [] :=
  ⟨rfl, rfl, rfl,
    C2_depth_policy.2.2.2 plainEnv optsDepth0 (Value.vobj [("a", Value.vbool true)])
      rfl rfl rfl⟩

/-- C3: the two-entry object with the numbers one and two, rendered
with fully defaulted options (showRoot false) and the identity color
environment, yields exactly the two expected lines in order. -/
theorem C3_scenario_two_keys :
    render plainEnv (resolveOptions {})
        (Value.vobj [("a", Value.vnum false "1"), ("b", Value.vnum false "2")])
      = ["├─ a: 1", "└─ b: 2"] := by
  have hh : (Value.vobj [("a", Value.vnum false "1"), ("b", Value.vnum false "2")]).height
      < 2 := by
    rw [height_vobj]
    simp [Value.height]
  rw [render_eq_walkF plainEnv (resolveOptions {}) _ 2 hh]
  decide

/-- C4: for every container with true size S and finite configured
limit M, the classifier produces exactly min(S, M) regular children,
in order, and appends a single truncation marker carrying S - M
exactly when M < S, never more than one: the regular children are the
take of the content and everything past them is the marker segment. -/
theorem C4_clamp_and_marker (env : ColorEnv) (opts : ResolvedOptions)
    (es fs : List Value) (ps qs rs : List (String × Value)) (nm : String)
    (MA MS MM MO : Nat)
    (hA : opts.array.maxItems = some MA) (hS : opts.set.maxItems = some MS)
    (hM : opts.map.maxItems = some MM) (hO : opts.object.maxKeys = some MO) :
    ((((renderValue env (Value.varr es) opts).children.take (min es.length MA)).map
        (fun c => c.value) = es.take (min es.length MA))
      ∧ (renderValue env (Value.varr es) opts).children.length
          = min es.length MA + (if MA < es.length then 1 else 0)
      ∧ (renderValue env (Value.varr es) opts).children.drop (min es.length MA)
          = (if MA < es.length then [truncationEntry (es.length - MA)] else []))
    ∧ ((((renderValue env (Value.vset fs) opts).children.take (min fs.length MS)).map
        (fun c => c.value) = fs.take (min fs.length MS))
      ∧ (renderValue env (Value.vset fs) opts).children.length
          = min fs.length MS + (if MS < fs.length then 1 else 0)
      ∧ (renderValue env (Value.vset fs) opts).children.drop (min fs.length MS)
          = (if MS < fs.length then [truncationEntry (fs.length - MS)] else []))
    ∧ ((((renderValue env (Value.vmap ps) opts).children.take (min ps.length MM)).map
        (fun c => (c.key, c.value)) = ps.take (min ps.length MM))
      ∧ (renderValue env (Value.vmap ps) opts).children.length
          = min ps.length MM + (if MM < ps.length then 1 else 0)
      ∧ (renderValue env (Value.vmap ps) opts).children.drop (min ps.length MM)
          = (if MM < ps.length then [truncationEntry (ps.length - MM)] else []))
    ∧ ((((renderValue env (Value.vobj qs) opts).children.take (min qs.length MO)).map
        (fun c => c.key)
        = (if opts.object.sortKeys then sortStrs (qs.map Prod.fst)
           else qs.map Prod.fst).take (min qs.length MO))
      ∧ (renderValue env (Value.vobj qs) opts).children.length
          = min qs.length MO + (if MO < qs.length then 1 else 0)
      ∧ (renderValue env (Value.vobj qs) opts).children.drop (min qs.length MO)
          = (if MO < qs.length then [truncationEntry (qs.length - MO)] else []))
    ∧ ((((renderValue env (Value.vinstance nm rs) opts).children.take
          (min rs.length MO)).map (fun c => c.key)
        = (rs.map Prod.fst).take (min rs.length MO))
      ∧ (renderValue env (Value.vinstance nm rs) opts).children.length
          = min rs.length MO + (if MO < rs.length then 1 else 0)
      ∧ (renderValue env (Value.vinstance nm rs) opts).children.drop (min rs.length MO)
          = (if MO < rs.length then [truncationEntry (rs.length - MO)] else [])) :=
  ⟨arrayChildren_spec env opts es MA hA,
   setChildren_spec env opts fs MS hS,
   mapChildren_spec env opts ps MM hM,
   objChildren_spec env opts qs MO hO,
   instChildren_spec env opts nm rs MO hO⟩

/-- Options equal to the defaults except that every container limit
is two. -/
def optsLim2 : ResolvedOptions :=
  { defaults with
      array := { maxItems := some 2, showLength := true },
      set := { maxItems := some 2, showSize := true },
      map := { maxItems := some 2, showSize := true, divider := " → " },
      object := { maxKeys := some 2, sortKeys := true } }

/-- C4 witness: a three-element array under limit two shows two
children plus one marker. -/
theorem C4_witness :
    optsLim2.array.maxItems = some 2 ∧ optsLim2.set.maxItems = some 2
      ∧ optsLim2.map.maxItems = some 2 ∧ optsLim2.object.maxKeys = some 2
      ∧ (renderValue plainEnv (Value.varr [Value.vnull, Value.vnull, Value.vnull])
          optsLim2).children.length
        = min 3 2 + (if 2 < 3 then 1 else 0) :=
  ⟨rfl, rfl, rfl, rfl,
    (C4_clamp_and_marker plainEnv optsLim2
      [Value.vnull, Value.vnull, Value.vnull] [] [] [] [] "" 2 2 2 2
      rfl rfl rfl rfl).1.2.1⟩

/-- C5 (amended): for a positive maxLength, a string longer than
maxLength is rendered as its first maxLength - 1 characters followed
by a single ellipsis, an equal-or-shorter string is unchanged, and
the body is then wrapped in the configured quote style; the amendment
restricts the claim to maxLength at least one, because at maxLength
zero the JS slice end becomes negative and keeps all but the last
character instead. -/
theorem C5_string_truncation (env : ColorEnv) (opts : ResolvedOptions) (s : String)
    (h : 1 ≤ opts.string.maxLength) :
    renderValue env (Value.vstr s) opts =
      { header := colorize env
          (quoteWrap opts.string.quotes
            (if strLen s > opts.string.maxLength
             then String.mk (s.toList.take (opts.string.maxLength - 1)) ++ "…"
             else s))
          opts.colors.string } := by
  have hv : renderValue env (Value.vstr s) opts =
      { header := colorize env
          (quoteWrap opts.string.quotes
            (if strLen s > opts.string.maxLength
             then jsSliceTo s (Int.ofNat opts.string.maxLength - 1) ++ "…"
             else s))
          opts.colors.string } := rfl
  rw [hv, jsSliceTo_pos s opts.string.maxLength h]

/-- C5 witness: the default maxLength is positive and a short string
is left unchanged inside double quotes. -/
theorem C5_witness :
    1 ≤ defaults.string.maxLength
      ∧ renderValue plainEnv (Value.vstr "hi") defaults =
          { header := colorize plainEnv
              (quoteWrap defaults.string.quotes
                (if strLen "hi" > defaults.string.maxLength
                 then String.mk (("hi").toList.take (defaults.string.maxLength - 1)) ++ "…"
                 else "hi"))
              defaults.colors.string } :=
  ⟨by decide, C5_string_truncation plainEnv defaults "hi" (by decide)⟩

/-- C5 counterexample: at maxLength zero the claim as stated fails:
the rendered body of the two-character string keeps one source
character before the ellipsis, not the claimed maxLength - 1 of
them. -/
theorem C5_counterexample :
    (renderValue plainEnv (Value.vstr "ab") optsStr0).header = "a…"
      ∧ ("a…" : String)
          ≠ String.mk (("ab").toList.take (optsStr0.string.maxLength - 1)) ++ "…" := by
  constructor
  · decide
  · decide

/-- C6: option resolution is an independent shallow merge per section
over the built-in defaults: a section that supplies only one subfield
keeps every sibling subfield at its default (stated generally for the
string section and for the concrete example of the claim), the empty
configuration resolves to the defaults, and the defaults are exactly
the values the claim lists. -/
theorem C6_option_resolution :
    (∀ (o : ObjectTreeOptions) (u : UserStr), o.string = some u → u.quotes = none →
        (resolveOptions o).string.quotes = QuoteStyle.double)
    ∧ (∀ n : Nat,
        resolveOptions { string := some { maxLength := some n } }
          = { defaults with string := { maxLength := n, quotes := QuoteStyle.double } })
    ∧ resolveOptions {} = defaults
    ∧ defaults.maxDepth = none ∧ defaults.array.maxItems = none
    ∧ defaults.object.maxKeys = none ∧ defaults.set.maxItems = none
    ∧ defaults.map.maxItems = none ∧ defaults.showRoot = false
    ∧ defaults.object.sortKeys = true ∧ defaults.array.showLength = true
    ∧ defaults.set.showSize = true ∧ defaults.map.showSize = true
    ∧ defaults.date.format = DateFormat.fmtNone
    ∧ defaults.string.quotes = QuoteStyle.double ∧ defaults.string.maxLength = 80
    ∧ defaults.map.divider = " → " := by
  refine ⟨?_, ?_, rfl, rfl, rfl, rfl, rfl, rfl, rfl, rfl, rfl, rfl, rfl, rfl, rfl, rfl,
    rfl⟩
  · intro o u ho hq
    have hstr : (resolveOptions o).string = mergeStr defaults.string o.string := rfl
    rw [hstr, ho, mergeStr, hq]
    rfl
  · intro n
    rfl

/-- C6 witness: supplying only the string maxLength keeps the default
double-quote style. -/
theorem C6_witness :
    ({ string := some { maxLength := some 10 } } : ObjectTreeOptions).string
        = some { maxLength := some 10 }
      ∧ ({ maxLength := some 10 } : UserStr).quotes = none
      ∧ (resolveOptions { string := some { maxLength := some 10 } }).string.quotes
          = QuoteStyle.double :=
  ⟨rfl, rfl,
    C6_option_resolution.1 { string := some { maxLength := some 10 } }
      { maxLength := some 10 } rfl rfl⟩

/-- C7: under sortKeys the rendered object keys (the regular
children, before any truncation marker) are in ascending
lexicographic order, and with sortKeys disabled they are the original
enumeration order. -/
theorem C7_key_order (env : ColorEnv) (opts : ResolvedOptions)
    (qs : List (String × Value)) :
    (opts.object.sortKeys = true →
      List.Pairwise (fun a b => strLe a b = true)
        (((renderValue env (Value.vobj qs) opts).children.take
            (minClamp qs.length opts.object.maxKeys)).map (fun c => c.key)))
    ∧ (opts.object.sortKeys = false →
      ((renderValue env (Value.vobj qs) opts).children.take
          (minClamp qs.length opts.object.maxKeys)).map (fun c => c.key)
        = (qs.map Prod.fst).take (minClamp qs.length opts.object.maxKeys)) := by
  have hlen : (if opts.object.sortKeys then sortStrs (qs.map Prod.fst)
      else qs.map Prod.fst).length = qs.length := by
    by_cases hs : opts.object.sortKeys = true
    · rw [if_pos hs, length_sortStrs, List.length_map]
    · rw [Bool.not_eq_true] at hs
      rw [hs]
      simp
  have hkeys : ((renderValue env (Value.vobj qs) opts).children.take
      (minClamp qs.length opts.object.maxKeys)).map (fun c => c.key)
      = (if opts.object.sortKeys then sortStrs (qs.map Prod.fst)
         else qs.map Prod.fst).take (minClamp qs.length opts.object.maxKeys) := by
    rw [renderValue_vobj]
    rw [hlen]
    have hB : (((if opts.object.sortKeys then sortStrs (qs.map Prod.fst)
        else qs.map Prod.fst).take (minClamp qs.length opts.object.maxKeys)).map
        (fun k => ({ key := k, value := lookupVal qs k } : ChildEntry))).length
        = minClamp qs.length opts.object.maxKeys := by
      rw [List.length_map, List.length_take, hlen]
      have := minClamp_le qs.length opts.object.maxKeys
      omega
    rw [List.take_left' hB, List.map_map]
    have hid : ((fun c : ChildEntry => c.key) ∘ (fun k : String => ({ key := k, value := lookupVal qs k } : ChildEntry))) = id := rfl
    rw [hid, List.map_id]
  constructor
  · intro hs
    rw [hkeys, hs]
    simp only [if_true]
    exact List.Pairwise.sublist (List.take_sublist _ _) (pairwise_sortStrs (qs.map Prod.fst))
  · intro hs
    rw [hkeys, hs]
    simp

/-- C7 witness: with the default options (sortKeys enabled) the keys
of a two-entry object given in reverse order come out sorted. -/
theorem C7_witness :
    defaults.object.sortKeys = true
      ∧ List.Pairwise (fun a b => strLe a b = true)
          (((renderValue plainEnv
              (Value.vobj [("b", Value.vnull), ("a", Value.vnull)]) defaults).children.take
              (minClamp [("b", Value.vnull), ("a", Value.vnull)].length
                defaults.object.maxKeys)).map (fun c => c.key)) :=
  ⟨rfl,
    (C7_key_order plainEnv defaults [("b", Value.vnull), ("a", Value.vnull)]).1 rfl⟩

/-- C8: the classification is total: for every value of the model the
handler chain itself already produces a node (the first matching
handler wins), renderValue returns exactly that node, and neither
classification nor rendering can fail, since both are total
functions. -/
theorem C8_classification_total (env : ColorEnv) (v : Value) (opts : ResolvedOptions) :
    ∃ r : RenderResult, runHandlers handlers env v opts = some r
      ∧ renderValue env v opts = r := by
  cases v with
  | vnull => exact ⟨_, rfl, rfl⟩
  | vundefined => exact ⟨_, rfl, rfl⟩
  | vbool b => exact ⟨_, rfl, rfl⟩
  | vnum nan text => exact ⟨_, rfl, rfl⟩
  | vbigint digits => exact ⟨_, rfl, rfl⟩
  | vsymbol desc => exact ⟨_, rfl, rfl⟩
  | vstr s => exact ⟨_, rfl, rfl⟩
  | vdate iso locale => exact ⟨_, rfl, rfl⟩
  | vregexp src => exact ⟨_, rfl, rfl⟩
  | varr es => exact ⟨_, rfl, rfl⟩
  | vset es => exact ⟨_, rfl, rfl⟩
  | vmap ps => exact ⟨_, rfl, rfl⟩
  | vfunc name => exact ⟨_, rfl, rfl⟩
  | vclass name => exact ⟨_, rfl, rfl⟩
  | vobj ps => exact ⟨_, rfl, rfl⟩
  | vinstance nm ps => exact ⟨_, rfl, rfl⟩

/-- C9: rendering the same unmodified value twice with the same
configuration and the same color environment yields identical line
sequences; in the embedding the renderer is a pure function of its
three arguments and the input value is never mutated, so the two runs
are one and the same term. -/
theorem C9_idempotent_render (env : ColorEnv) (opts : ResolvedOptions) (v : Value) :
    render env opts v = render env opts v := rfl

/-- C10 (amended): with showRoot false, a root whose classified node
has no children renders as the empty list of lines, unless the root
value is itself a string matching the truncation-marker shape, which
is printed as one marker line even at the root. -/
theorem C10_childless_root (env : ColorEnv) (opts : ResolvedOptions) (v : Value)
    (h1 : opts.showRoot = false) (h2 : (renderValue env v opts).children = [])
    (h3 : isTruncVal v = false) : render env opts v = [] := by
  rw [render, walk]
  rw [depthExceeds_zero, h3, h1]
  simp only [Bool.false_eq_true, if_false]
  rw [h2]
  simp

/-- C10 witness: a primitive root under the default options renders
no lines. -/
theorem C10_witness :
    defaults.showRoot = false
      ∧ (renderValue plainEnv (Value.vbool true) defaults).children = []
      ∧ isTruncVal (Value.vbool true) = false
      ∧ render plainEnv defaults (Value.vbool true) = [] :=
  ⟨rfl, rfl, rfl,
    C10_childless_root plainEnv defaults (Value.vbool true) rfl rfl rfl⟩

/-- C10 counterexample: the childless string root whose text matches
the marker shape renders one line under showRoot false, not the empty
list. -/
theorem C10_counterexample :
    render plainEnv defaults (Value.vstr "+1 more") = ["+1 more"]
      ∧ (renderValue plainEnv (Value.vstr "+1 more") defaults).children = []
      ∧ defaults.showRoot = false := by
  refine ⟨?_, rfl, rfl⟩
  have hh : (Value.vstr "+1 more").height < 1 := by
    rw [height_vstr]
    omega
  rw [render_eq_walkF plainEnv defaults _ 1 hh]
  decide
